import Mathlib

set_option linter.unusedVariables false
set_option linter.unnecessarySeqFocus false

/-!
Verification development for the transformer architecture in
`src/transformer.py`.  Tensors are shallowly embedded as functions
`Fin m → Fin n → ℝ` (one 2-D slice; the batch and head axes appear as
additional `Fin` arguments where the source code has them), machine
floats become real numbers, and the fallible constructor becomes an
`Option`-valued function.  Shape-only artefacts built with numpy
(`subsequent_mask`) are embedded as nested lists so that the shape of
the produced array is itself observable.
-/

namespace Transformer

/-- A 2-D tensor slice with `m` rows and `n` columns. -/
abbrev Mat (m n : ℕ) : Type := Fin m → Fin n → ℝ

/-! ## `subsequent_mask` (transformer.py lines 275-284)

`np.triu(np.ones((1, size, size)), k=1).astype(uint8)` builds a matrix of
ones strictly above the diagonal, and the final `== 0` comparison turns it
into a boolean mask that is `true` on and below the diagonal. -/

/-- The numpy `np.triu(np.ones((size, size)), k = 1)` matrix of `uint8`
entries: `1` where `i + 1 ≤ j`, `0` elsewhere. -/
def triuOnes (size : ℕ) : List (List ℕ) :=
  (List.range size).map (fun i => (List.range size).map (fun j => if i + 1 ≤ j then 1 else 0))

/-- `subsequent_mask` from the source: shape `(1, size, size)`, with entry
`(i, j)` equal to the result of comparing the `triu` entry with `0`. -/
def subsequent_mask (size : ℕ) : List (List (List Bool)) :=
  [(triuOnes size).map (fun row => row.map (fun v => v == 0))]

/-! ## `MultiHeadedAttention.__init__` (lines 108-130) and `make_model` (lines 392-420)

The constructor runs `assert d_model % h == 0`; a failing assert (or the
`ZeroDivisionError` that Python raises for `% 0`) aborts construction, which
we embed as `none`. -/

/-- Configuration produced by a successful `MultiHeadedAttention.__init__`:
the per-head width `d_k = d_model // h` and the head count `h`. -/
structure MHAConfig where
  d_k : ℕ
  h : ℕ
  deriving DecidableEq, Repr

/-- `MultiHeadedAttention.__init__`: Python raises `ZeroDivisionError` on
`d_model % 0`, and otherwise `assert d_model % h == 0` aborts unless `h`
divides `d_model`; on success it stores `d_k = d_model // h` and `h`. -/
def MultiHeadedAttention.init (h d_model : ℕ) : Option MHAConfig :=
  if h = 0 then none
  else if d_model % h = 0 then some ⟨d_model / h, h⟩ else none

/-- Configuration of a successfully constructed `PositionalEncoding`. -/
structure PEConfig where
  d_model : ℕ
  deriving DecidableEq, Repr

/-- `PositionalEncoding.__init__` (lines 56-77): `div_term` evaluates
`-(math.log(10000.0) / d_model)`, which raises `ZeroDivisionError` when
`d_model = 0`; and for odd `d_model` the assignment
`pe[:, 1::2] = torch.cos(position * div_term)` writes a tensor with
`⌈d_model/2⌉` columns into a slice that has only `⌊d_model/2⌋` columns and
raises a shape-mismatch error.  Construction therefore succeeds iff
`d_model` is positive and even. -/
def PositionalEncoding.init (d_model : ℕ) : Option PEConfig :=
  if d_model = 0 then none
  else if d_model % 2 = 1 then none
  else some ⟨d_model⟩

/-- The hyperparameters assembled by `make_model`.  The feed-forward,
embedding, generator and parameter-initialisation steps of the factory are
total; the fallible steps are the attention constructor (the
divisibility assert) and the positional-encoding constructor. -/
structure ModelConfig where
  attn : MHAConfig
  pe : PEConfig
  src_vocab : ℕ
  tgt_vocab : ℕ
  N : ℕ
  d_model : ℕ
  d_ff : ℕ
  deriving DecidableEq, Repr

/-- `make_model`: builds the shared `MultiHeadedAttention` first (line 405),
then the `PositionalEncoding` (line 407), and wires the remaining (total)
components around them. -/
def make_model (src_vocab tgt_vocab N d_model d_ff h : ℕ) : Option ModelConfig :=
  (MultiHeadedAttention.init h d_model).bind
    (fun a => (PositionalEncoding.init d_model).map
      (fun p => ⟨a, p, src_vocab, tgt_vocab, N, d_model, d_ff⟩))

/-! ## `clones` (lines 19-25)

`nn.ModuleList([copy.deepcopy(module) for _ in range(N)])`.  To make
parameter-storage sharing observable we model module storage as a heap
(a list of parameter records addressed by position).  `copy.deepcopy`
allocates a fresh cell holding a copy of the template value; the returned
addresses are the cloned layers. -/

/-- One `copy.deepcopy` step followed by the allocations of the remaining
copies: returns the grown heap together with the addresses of the `N`
fresh cells, each initialised with the value stored at `template`.
The `dflt` argument only feeds `List.getD`; every dereference in the
theorems is at an in-range address. -/
def clones {α : Type} (heap : List α) (template : ℕ) (dflt : α) : ℕ → List α × List ℕ
  | 0 => (heap, [])
  | N + 1 =>
      let j := heap.length
      let heap1 := heap ++ [heap.getD template dflt]
      let r := clones heap1 template dflt N
      (r.1, j :: r.2)

/-! ## Scaled dot-product attention (lines 86-106) -/

/-- The raw scores `query @ key.transpose(-2, -1) / math.sqrt(d_k)` where
`d_k = query.size(-1)` is the shared feature width `d`. -/
noncomputable def attnScores {m n d : ℕ} (query : Mat m d) (key : Mat n d) : Mat m n :=
  fun i j => (∑ t, query i t * key j t) / Real.sqrt d

/-- `scores.masked_fill(mask == 0, -1e9)`: where the mask forbids a position
(`false`, i.e. compares equal to 0) the score is overwritten with the
sentinel `-1e9`. -/
def maskedFill {m n : ℕ} (scores : Mat m n) (mask : Fin m → Fin n → Bool) : Mat m n :=
  fun i j => if mask i j then scores i j else -1e9

/-- `F.softmax(scores, dim = -1)` on one row. -/
noncomputable def softmaxRow {n : ℕ} (s : Fin n → ℝ) : Fin n → ℝ :=
  fun j => Real.exp (s j) / ∑ j', Real.exp (s j')

/-- `attention(query, key, value, mask, dropout)`: returns
`(p_attn @ value, p_attn)` where `p_attn` is the row-softmax of the
(optionally masked) scores with the dropout module (if any) applied. -/
noncomputable def attention {m n d dv : ℕ} (query : Mat m d) (key : Mat n d) (value : Mat n dv)
    (mask : Option (Fin m → Fin n → Bool)) (dropout : Option (Mat m n → Mat m n)) :
    Mat m dv × Mat m n :=
  let scores := attnScores query key
  let scores := match mask with
    | some mk => maskedFill scores mk
    | none => scores
  let p_attn := fun i => softmaxRow (scores i)
  let p_attn := match dropout with
    | some f => f p_attn
    | none => p_attn
  (fun i c => ∑ j, p_attn i j * value j c, p_attn)

/-! ## `LayerNorm` (lines 191-217) -/

/-- `x.mean(-1)` over one feature row. -/
noncomputable def vecMean {n : ℕ} (x : Fin n → ℝ) : ℝ := (∑ i, x i) / n

/-- `x.std(-1)`: torch uses the unbiased estimator, dividing the summed
squared deviations by `n - 1` (real subtraction, as torch computes in
floating point). -/
noncomputable def vecStd {n : ℕ} (x : Fin n → ℝ) : ℝ :=
  Real.sqrt ((∑ i, (x i - vecMean x) ^ 2) / ((n : ℝ) - 1))

/-- The normalisation performed by `LayerNorm.forward` before the learnable
scale and shift are applied: `(x - mean) / (std + eps)`. -/
noncomputable def LayerNorm.normalize {n : ℕ} (eps : ℝ) (x : Fin n → ℝ) : Fin n → ℝ :=
  fun i => (x i - vecMean x) / (vecStd x + eps)

/-- `LayerNorm.forward`: `a_2 * (x - mean) / (std + eps) + b_2`. -/
noncomputable def LayerNorm.forward {n : ℕ} (a_2 b_2 : Fin n → ℝ) (eps : ℝ)
    (x : Fin n → ℝ) : Fin n → ℝ :=
  fun i => a_2 i * LayerNorm.normalize eps x i + b_2 i

/-- The unbiased sample variance along the feature axis, matching the
`n - 1` denominator of `torch.std`. -/
noncomputable def vecVar {n : ℕ} (x : Fin n → ℝ) : ℝ :=
  (∑ i, (x i - vecMean x) ^ 2) / ((n : ℝ) - 1)

/-! ## `SublayerConnection` (lines 235-256)

The module owns one `LayerNorm` (parameters `a_2`, `b_2`, `eps`) and one
dropout module; dropout is abstracted as a function on tensors so that a
fixed random draw is a fixed function. -/

/-- `SublayerConnection.forward`: `x + self.norm(self.dropout(sublayer(x)))`,
with the norm applied per position over the feature axis. -/
noncomputable def SublayerConnection.forward {s d : ℕ} (a_2 b_2 : Fin d → ℝ) (eps : ℝ)
    (dropout : Mat s d → Mat s d) (x : Mat s d) (sublayer : Mat s d → Mat s d) : Mat s d :=
  fun i j => x i j + LayerNorm.forward a_2 b_2 eps (dropout (sublayer x) i) j

/-- The composition order written in the specification:
`output = input + normalize(dropout(sublayer(input)))` with the input left
un-normalised on the residual path. -/
noncomputable def specSublayerOrder {s d : ℕ} (a_2 b_2 : Fin d → ℝ) (eps : ℝ)
    (dropout : Mat s d → Mat s d) (x : Mat s d) (sublayer : Mat s d → Mat s d) : Mat s d :=
  fun i j => x i j + LayerNorm.forward a_2 b_2 eps (dropout (sublayer x) i) j

/-! ## `Embeddings` (lines 29-50) -/

/-- `Embeddings.forward`: `self.lut(x) * math.sqrt(self.d_model)`, where
`lut` is the lookup table of the `nn.Embedding` with embedding width
`d_model` and `x` is a sequence of token ids. -/
noncomputable def Embeddings.forward {s d_model : ℕ} (lut : ℕ → Fin d_model → ℝ)
    (x : Fin s → ℕ) : Mat s d_model :=
  fun i j => lut (x i) j * Real.sqrt d_model

/-- The raw lookup-table result, before any scaling (the spec's reference
point for the √d_model factor). -/
noncomputable def Embeddings.rawLookup {s d_model : ℕ} (lut : ℕ → Fin d_model → ℝ)
    (x : Fin s → ℕ) : Mat s d_model :=
  fun i j => lut (x i) j

/-! ## `Encoder` (lines 258-273) -/

/-- `Encoder.forward`: the `for layer in self.layers: x = layer(x, mask)`
loop is a left fold, followed by the final `LayerNorm`. -/
noncomputable def Encoder.forward {s d : ℕ}
    (layers : List (Mat s d → (Fin s → Fin s → Bool) → Mat s d))
    (a_2 b_2 : Fin d → ℝ) (eps : ℝ) (x : Mat s d) (mask : Fin s → Fin s → Bool) : Mat s d :=
  fun i => LayerNorm.forward a_2 b_2 eps ((layers.foldl (fun acc layer => layer acc mask) x) i)

/-! ## `DecoderLayer` (lines 289-315)

The three `SublayerConnection`s are cloned from one template, so each owns
its own `LayerNorm` parameters and dropout; the two attention modules and
the feed-forward are module-valued fields, embedded as functions. -/

/-- `DecoderLayer.forward`: sublayer 0 is self-attention with
`Q = K = V = x` under `tgt_mask`, sublayer 1 is cross-attention with
`Q = x`, `K = V = memory` under `src_mask`, sublayer 2 is the
feed-forward. -/
noncomputable def DecoderLayer.forward {t s d : ℕ}
    (self_attn : Mat t d → Mat t d → Mat t d → Option (Fin t → Fin t → Bool) → Mat t d)
    (src_attn : Mat t d → Mat s d → Mat s d → Option (Fin t → Fin s → Bool) → Mat t d)
    (feed_forward : Mat t d → Mat t d)
    (a0 b0 a1 b1 a2 b2 : Fin d → ℝ) (eps : ℝ)
    (drop0 drop1 drop2 : Mat t d → Mat t d)
    (x : Mat t d) (memory : Mat s d)
    (src_mask : Option (Fin t → Fin s → Bool)) (tgt_mask : Option (Fin t → Fin t → Bool)) :
    Mat t d :=
  let m := memory
  let x1 := SublayerConnection.forward a0 b0 eps drop0 x (fun y => self_attn y y y tgt_mask)
  let x2 := SublayerConnection.forward a1 b1 eps drop1 x1 (fun y => src_attn y m m src_mask)
  SublayerConnection.forward a2 b2 eps drop2 x2 feed_forward

/-- Modelled from the spec: the mask fed to decoder self-attention is the
logical AND of the causal mask produced by `subsequent_mask` and the
batch-specific target padding mask.  The code that combines the two masks
(the batch-preparation caller) is not part of `src/transformer.py`; the
causal factor is read off the source-level `subsequent_mask` above. -/
def combinedTgtMask (t : ℕ) (pad : Fin t → Fin t → Bool) : Fin t → Fin t → Bool :=
  fun i j => ((((subsequent_mask t).getD 0 []).getD i []).getD j false) && pad i j

/-! ## `MultiHeadedAttention` (lines 108-169)

The module owns four linear layers (query, key, value, output projections),
the head geometry, and a mutable field `self.attn` that `forward` assigns:
`x, self.attn = attention(...)`.  The module state is therefore threaded
explicitly: `forward` returns the output tensor together with the updated
module. -/

/-- The stored attention tensor `self.attn` of shape
`(batch, h, seq_q, seq_kv)`; the dimensions are packaged existentially
because they are determined per call. -/
def AttnCache : Type := Σ b h m n : ℕ, (Fin b → Fin h → Fin m → Fin n → ℝ)

/-- The state of a `MultiHeadedAttention` module: the four projections
(`self.linears`), the head geometry from the constructor, and the
`self.attn` cache (initialised to `None`). -/
structure MultiHeadedAttention (d_model : ℕ) where
  wq : Fin d_model → Fin d_model → ℝ
  bq : Fin d_model → ℝ
  wk : Fin d_model → Fin d_model → ℝ
  bk : Fin d_model → ℝ
  wv : Fin d_model → Fin d_model → ℝ
  bv : Fin d_model → ℝ
  wo : Fin d_model → Fin d_model → ℝ
  bo : Fin d_model → ℝ
  h : ℕ
  d_k : ℕ
  h_dk : h * d_k = d_model
  attn : Option AttnCache

/-- `nn.Linear`: `y = x @ W.T + b` applied to every row of `x`. -/
noncomputable def linearForward {s din dout : ℕ} (W : Fin dout → Fin din → ℝ)
    (bias : Fin dout → ℝ) (x : Mat s din) : Mat s dout :=
  fun i o => (∑ t, W o t * x i t) + bias o

/-- The `view(nbatches, -1, h, d_k).transpose(1, 2)` reshape: head `k` of a
projected `(seq, d_model)` tensor reads the contiguous column block
`[k * d_k, (k + 1) * d_k)`. -/
def headOf {s d h d_k : ℕ} (e : h * d_k = d) (k : Fin h) (x : Mat s d) : Mat s d_k :=
  fun i t => x i (Fin.cast e (finProdFinEquiv (k, t)))

/-- `MultiHeadedAttention.forward`: project, split into heads, run the
batched attention primitive per (batch, head) with the module dropout,
store the resulting weights into `self.attn`, concatenate the heads and
apply the output projection.  The incoming mask is `unsqueeze(1)`-broadcast
to all heads (the same 2-D slice per batch element is used for every
head). -/
noncomputable def MultiHeadedAttention.forward {d_model b sq skv : ℕ}
    (self : MultiHeadedAttention d_model)
    (dropout : Mat sq skv → Mat sq skv)
    (query : Fin b → Mat sq d_model) (key value : Fin b → Mat skv d_model)
    (mask : Option (Fin b → Fin sq → Fin skv → Bool)) :
    (Fin b → Mat sq d_model) × MultiHeadedAttention d_model :=
  let q := fun β => linearForward self.wq self.bq (query β)
  let k := fun β => linearForward self.wk self.bk (key β)
  let v := fun β => linearForward self.wv self.bv (value β)
  let per := fun (β : Fin b) (hd : Fin self.h) =>
    attention (headOf self.h_dk hd (q β)) (headOf self.h_dk hd (k β)) (headOf self.h_dk hd (v β))
      (mask.map (fun mk => mk β)) (some dropout)
  let x := fun (β : Fin b) (i : Fin sq) (c : Fin d_model) =>
    let pr := finProdFinEquiv.symm (Fin.cast self.h_dk.symm c)
    (per β pr.1).1 i pr.2
  (fun β => linearForward self.wo self.bo (x β),
   { self with attn := some ⟨b, self.h, sq, skv, fun β hd => (per β hd).2⟩ })

/-! ## Helper lemmas -/

/-- Reading position `i < n` out of a mapped `List.range`. -/
lemma getD_map_range {α : Type} (f : ℕ → α) (n i : ℕ) (h : i < n) (d : α) :
    ((List.range n).map f).getD i d = f i := by
  rw [List.getD_eq_getElem _ _ (by simpa using h)]
  simp

/-- The single entry `(i, j)` of `subsequent_mask size`: allowed iff `j ≤ i`. -/
lemma subsequent_mask_getD (size i j : ℕ) (hi : i < size) (hj : j < size) :
    (((subsequent_mask size).getD 0 []).getD i []).getD j false = decide (j ≤ i) := by
  have h0 : (subsequent_mask size).getD 0 [] =
      (triuOnes size).map (fun row => row.map (fun v => v == 0)) := rfl
  rw [h0]
  unfold triuOnes
  rw [List.map_map, getD_map_range _ _ _ hi, Function.comp_apply, List.map_map,
    getD_map_range _ _ _ hj, Function.comp_apply]
  by_cases hij : i + 1 ≤ j
  · simp [hij]
    omega
  · simp [hij]
    omega

/-! ## Claim theorems -/

/-- Claim C4: `subsequent_mask(n)` produces a boolean causal mask whose
entry `(i, j)` is allowed (`true`) iff `j ≤ i`; in particular
`subsequent_mask 4` yields rows `[T,F,F,F]`, `[T,T,F,F]`, `[T,T,T,F]`,
`[T,T,T,T]`. -/
theorem subsequent_mask_causal :
    (∀ size i j : ℕ, i < size → j < size →
      (((subsequent_mask size).getD 0 []).getD i []).getD j false = decide (j ≤ i))
    ∧ subsequent_mask 4 =
      [[[true, false, false, false],
        [true, true, false, false],
        [true, true, true, false],
        [true, true, true, true]]] := by
  refine ⟨fun size i j hi hj => subsequent_mask_getD size i j hi hj, ?_⟩
  decide

/-- Witness for C4: the entry lemma applied at `size = 4`, `i = 2`, `j = 1`. -/
theorem subsequent_mask_causal_witness :
    (2 < 4 ∧ 1 < 4) ∧
      (((subsequent_mask 4).getD 0 []).getD 2 []).getD 1 false = decide (1 ≤ 2) :=
  ⟨⟨by decide, by decide⟩, subsequent_mask_causal.1 4 2 1 (by decide) (by decide)⟩

/-- Claim C10: `subsequent_mask size` returns shape `(1, size, size)` — a
leading singleton batch dimension in front of a `size × size` matrix of
boolean entries (booleans by the return type) — for every `size ≥ 1`. -/
theorem subsequent_mask_shape (size : ℕ) (hsize : 1 ≤ size) :
    (subsequent_mask size).length = 1 ∧
    ∀ m ∈ subsequent_mask size, m.length = size ∧ ∀ row ∈ m, row.length = size := by
  refine ⟨rfl, ?_⟩
  intro m hm
  have hm' : m = (triuOnes size).map (fun row => row.map (fun v => v == 0)) := by
    simpa [subsequent_mask] using hm
  subst hm'
  constructor
  · simp [triuOnes]
  · intro row hrow
    simp only [triuOnes, List.map_map, List.mem_map] at hrow
    obtain ⟨i, _, hrow⟩ := hrow
    simp [← hrow]

/-- Witness for C10: the shape property evaluated at `size = 3`. -/
theorem subsequent_mask_shape_witness :
    1 ≤ 3 ∧ ((subsequent_mask 3).length = 1 ∧
      ∀ m ∈ subsequent_mask 3, m.length = 3 ∧ ∀ row ∈ m, row.length = 3) :=
  ⟨by decide, subsequent_mask_shape 3 (by decide)⟩

/-- Counterexample to claim C1 as stated: with `d_model = 3` and
`head_count = 1` the head count divides `d_model`, yet the factory fails —
the real `PositionalEncoding.__init__` raises on the odd-width
`pe[:, 1::2]` assignment — so "the model via the factory succeeds iff
`d_model % head_count == 0`" is false. -/
theorem make_model_odd_d_model_fails :
    3 % 1 = 0 ∧ make_model 10 10 2 3 8 1 = none := by
  exact ⟨rfl, by decide⟩

/-- Claim C1 (amended): for every pair `(d_model, head_count)` with a
positive head count, constructing the multi-head attention module succeeds
iff `d_model % head_count = 0`, and the model factory succeeds iff
additionally the positional-encoding constructor succeeds, i.e. `d_model`
is positive and even; every failure is deterministic (`none`) before any
forward call. -/
theorem construction_divisibility (h d_model src_vocab tgt_vocab N d_ff : ℕ)
    (hh : 1 ≤ h) :
    ((MultiHeadedAttention.init h d_model).isSome ↔ d_model % h = 0) ∧
    ((make_model src_vocab tgt_vocab N d_model d_ff h).isSome ↔
      (d_model % h = 0 ∧ 0 < d_model ∧ d_model % 2 = 0)) := by
  have hne : h ≠ 0 := by omega
  constructor
  · by_cases hd : d_model % h = 0 <;>
      simp [MultiHeadedAttention.init, hne, hd]
  · by_cases hd : d_model % h = 0 <;> by_cases h0 : d_model = 0 <;>
      by_cases h2 : d_model % 2 = 1 <;>
      simp [make_model, MultiHeadedAttention.init, PositionalEncoding.init,
        hne, hd, h0, h2] <;>
      omega

/-- Witness for C1 (amended): the default hyperparameters `h = 8`,
`d_model = 512`. -/
theorem construction_divisibility_witness :
    1 ≤ 8 ∧
    (((MultiHeadedAttention.init 8 512).isSome ↔ 512 % 8 = 0) ∧
     ((make_model 10 10 6 512 2048 8).isSome ↔
       (512 % 8 = 0 ∧ 0 < 512 ∧ 512 % 2 = 0))) :=
  ⟨by decide, construction_divisibility 8 512 10 10 6 2048 (by decide)⟩

/-- Claim C2: the sublayer connection computes exactly
`output = input + normalize(dropout(sublayer(input)))` — the residual is
added to the normalized, dropped-out sublayer result and the input itself
is left un-normalized — for every input tensor and every (type-enforced
shape-preserving) sublayer function. -/
theorem sublayer_connection_order {s d : ℕ} (a_2 b_2 : Fin d → ℝ) (eps : ℝ)
    (dropout : Mat s d → Mat s d) (x : Mat s d) (sublayer : Mat s d → Mat s d) :
    SublayerConnection.forward a_2 b_2 eps dropout x sublayer =
      specSublayerOrder a_2 b_2 eps dropout x sublayer ∧
    ∀ i j, SublayerConnection.forward a_2 b_2 eps dropout x sublayer i j =
      x i j + LayerNorm.forward a_2 b_2 eps (dropout (sublayer x) i) j :=
  ⟨rfl, fun _ _ => rfl⟩

/-- Claim C8: the embedding output equals the raw lookup-table vector for
each token id multiplied by exactly `√d_model`, for every token-id
sequence. -/
theorem embeddings_scaled_lookup {s d_model : ℕ} (lut : ℕ → Fin d_model → ℝ)
    (x : Fin s → ℕ) :
    Embeddings.forward lut x =
      fun i j => Embeddings.rawLookup lut x i j * Real.sqrt d_model :=
  rfl

/-- Claim C9 (amended): a forward call of the multi-head attention module
is a pure function of the parameters, inputs and dropout draw — its output
does not depend on the mutable `attn` field, and it modifies none of the
parameter fields — but it does overwrite the module's `attn` field with the
freshly computed attention weights on every call. -/
theorem mha_forward_frame {d_model b sq skv : ℕ} (self : MultiHeadedAttention d_model)
    (dropout : Mat sq skv → Mat sq skv)
    (query : Fin b → Mat sq d_model) (key value : Fin b → Mat skv d_model)
    (mask : Option (Fin b → Fin sq → Fin skv → Bool)) :
    ((MultiHeadedAttention.forward self dropout query key value mask).2.wq = self.wq ∧
     (MultiHeadedAttention.forward self dropout query key value mask).2.bq = self.bq ∧
     (MultiHeadedAttention.forward self dropout query key value mask).2.wk = self.wk ∧
     (MultiHeadedAttention.forward self dropout query key value mask).2.bk = self.bk ∧
     (MultiHeadedAttention.forward self dropout query key value mask).2.wv = self.wv ∧
     (MultiHeadedAttention.forward self dropout query key value mask).2.bv = self.bv ∧
     (MultiHeadedAttention.forward self dropout query key value mask).2.wo = self.wo ∧
     (MultiHeadedAttention.forward self dropout query key value mask).2.bo = self.bo ∧
     (MultiHeadedAttention.forward self dropout query key value mask).2.h = self.h ∧
     (MultiHeadedAttention.forward self dropout query key value mask).2.d_k = self.d_k) ∧
    (∀ a', (MultiHeadedAttention.forward { self with attn := a' }
        dropout query key value mask).1 =
      (MultiHeadedAttention.forward self dropout query key value mask).1) ∧
    (MultiHeadedAttention.forward self dropout query key value mask).2.attn.isSome = true :=
  ⟨⟨rfl, rfl, rfl, rfl, rfl, rfl, rfl, rfl, rfl, rfl⟩, fun _ => rfl, rfl⟩

/-- A freshly constructed single-head module over `d_model = 1` with zero
weights: `self.attn` is `None` as set by `__init__`. -/
def mhaFreshModule : MultiHeadedAttention 1 where
  wq := fun _ _ => 0
  bq := fun _ => 0
  wk := fun _ _ => 0
  bk := fun _ => 0
  wv := fun _ _ => 0
  bv := fun _ => 0
  wo := fun _ _ => 0
  bo := fun _ => 0
  h := 1
  d_k := 1
  h_dk := rfl
  attn := none

/-- Counterexample to claim C9 as stated: a forward call does modify model
state.  On a concrete input, `MultiHeadedAttention.forward` changes the
module's `attn` field (from `None` to the stored attention weights), so a
forward call is not free of state modification. -/
theorem mha_forward_modifies_state :
    (@MultiHeadedAttention.forward 1 1 1 1 mhaFreshModule (fun p => p)
        (fun _ => fun _ _ => 0) (fun _ => fun _ _ => 0) (fun _ => fun _ _ => 0)
        none).2.attn ≠ mhaFreshModule.attn := by
  have h1 : (@MultiHeadedAttention.forward 1 1 1 1 mhaFreshModule (fun p => p)
      (fun _ => fun _ _ => 0) (fun _ => fun _ _ => 0) (fun _ => fun _ _ => 0)
      none).2.attn.isSome = true := rfl
  intro h
  rw [h] at h1
  simp [mhaFreshModule] at h1

/-- A softmax row over a nonempty index set sums to exactly 1. -/
lemma softmaxRow_sum {n : ℕ} (hn : 0 < n) (s : Fin n → ℝ) :
    ∑ j, softmaxRow s j = 1 := by
  have hne : Nonempty (Fin n) := ⟨⟨0, hn⟩⟩
  have hpos : 0 < ∑ j', Real.exp (s j') :=
    Finset.sum_pos (fun j _ => Real.exp_pos _) Finset.univ_nonempty
  unfold softmaxRow
  rw [← Finset.sum_div, div_self (ne_of_gt hpos)]

/-- `exp (-14) < 1e-6`, via `exp 1 > 2.7182818283`. -/
lemma exp_neg_fourteen_lt : Real.exp (-14) < 1e-6 := by
  have h1 : (2.7182818283 : ℝ) < Real.exp 1 := Real.exp_one_gt_d9
  have h14 : Real.exp (14 : ℝ) = Real.exp 1 ^ (14 : ℕ) := by
    rw [← Real.exp_nat_mul]
    norm_num
  have h2 : (1e6 : ℝ) < Real.exp 14 := by
    rw [h14]
    calc (1e6 : ℝ) < 2.7182818283 ^ (14 : ℕ) := by norm_num
      _ ≤ Real.exp 1 ^ (14 : ℕ) := pow_le_pow_left₀ (by norm_num) h1.le 14
  have hp : 0 < Real.exp (14 : ℝ) := Real.exp_pos _
  rw [Real.exp_neg, inv_eq_one_div]
  have h3 : 1 / Real.exp (14 : ℝ) < 1 / 1e6 :=
    one_div_lt_one_div_of_lt (by norm_num) h2
  calc 1 / Real.exp (14 : ℝ) < 1 / 1e6 := h3
    _ = 1e-6 := by norm_num

/-- Claim C3 (amended): with the masked call of `attention` (dropout
disabled), every query row — masked or not — sums to 1 along the key axis
(so certainly within tolerance 1e-5); every forbidden score is overwritten
with the large-magnitude negative sentinel `-1e9` before the softmax; and
every forbidden position in a row that also contains at least one allowed
position of scaled score at least `-1e9 + 14` receives weight below
`1e-6`. -/
theorem attention_masked_softmax {m n d dv : ℕ} (hn : 0 < n)
    (query : Mat m d) (key : Mat n d) (value : Mat n dv)
    (mask : Fin m → Fin n → Bool) (i : Fin m) :
    (|(∑ j, (attention query key value (some mask) none).2 i j) - 1| ≤ 1e-5)
    ∧ (∀ j, mask i j = false → maskedFill (attnScores query key) mask i j = -1e9)
    ∧ (∀ j, mask i j = false →
        (∃ j', mask i j' = true ∧ -1e9 + 14 ≤ attnScores query key i j') →
        (attention query key value (some mask) none).2 i j < 1e-6) := by
  have hp : (attention query key value (some mask) none).2 =
      fun i' => softmaxRow (maskedFill (attnScores query key) mask i') := rfl
  refine ⟨?_, ?_, ?_⟩
  · rw [hp]
    rw [softmaxRow_sum hn]
    norm_num
  · intro j hj
    simp [maskedFill, hj]
  · intro j hj ⟨j', hj', hscore⟩
    rw [hp]
    have hmsj : maskedFill (attnScores query key) mask i j = -1e9 := by
      simp [maskedFill, hj]
    have hmsj' : maskedFill (attnScores query key) mask i j' =
        attnScores query key i j' := by
      simp [maskedFill, hj']
    set ms := maskedFill (attnScores query key) mask i with hms
    have hZ : Real.exp (ms j') ≤ ∑ j'', Real.exp (ms j'') :=
      Finset.single_le_sum (fun k _ => (Real.exp_pos (ms k)).le) (Finset.mem_univ j')
    have hZpos : 0 < ∑ j'', Real.exp (ms j'') := by
      have hne : Nonempty (Fin n) := ⟨⟨0, hn⟩⟩
      exact Finset.sum_pos (fun j'' _ => Real.exp_pos _) Finset.univ_nonempty
    have step1 : softmaxRow ms j ≤ Real.exp (ms j) / Real.exp (ms j') := by
      unfold softmaxRow
      gcongr
    have step2 : Real.exp (ms j) / Real.exp (ms j') = Real.exp (ms j - ms j') :=
      (Real.exp_sub _ _).symm
    have step3 : ms j - ms j' ≤ -14 := by
      have h1 : ms j = -1e9 := hmsj
      have h2 : -1e9 + 14 ≤ ms j' := by
        rw [hmsj']
        exact hscore
      rw [h1]
      linarith
    calc softmaxRow ms j ≤ Real.exp (ms j - ms j') := by rw [← step2]; exact step1
      _ ≤ Real.exp (-14) := Real.exp_le_exp.mpr step3
      _ < 1e-6 := exp_neg_fourteen_lt

/-- A concrete 1-row, 1-feature query of zeros. -/
def attnExQ : Mat 1 1 := fun _ _ => 0

/-- A concrete 2-row, 1-feature key of zeros. -/
def attnExK : Mat 2 1 := fun _ _ => 0

/-- A concrete 2-row, 1-feature value of zeros. -/
def attnExV : Mat 2 1 := fun _ _ => 0

/-- A concrete mask allowing key 0 and forbidding key 1. -/
def attnExMask : Fin 1 → Fin 2 → Bool := fun _ j => j = 0

/-- Witness for C3 (amended): a 1-query, 2-key instance whose mask allows
key 0 (score 0) and forbids key 1. -/
theorem attention_masked_softmax_witness :
    0 < 2 ∧
    ((|(∑ j, (attention attnExQ attnExK attnExV (some attnExMask) none).2 0 j) - 1| ≤ 1e-5)
    ∧ (∀ j, attnExMask 0 j = false →
        maskedFill (attnScores attnExQ attnExK) attnExMask 0 j = -1e9)
    ∧ (∀ j, attnExMask 0 j = false →
        (∃ j', attnExMask 0 j' = true ∧ -1e9 + 14 ≤ attnScores attnExQ attnExK 0 j') →
        (attention attnExQ attnExK attnExV (some attnExMask) none).2 0 j < 1e-6)) :=
  ⟨by decide,
    @attention_masked_softmax 1 2 1 1 (by decide) attnExQ attnExK attnExV attnExMask 0⟩

/-- Counterexample to claim C3 as stated, covering both ways in which the
unconditional "masked weight below 1e-6" fails.  First, a fully forbidden
query row (2 keys, both masked): the softmax of the two identical sentinel
scores gives each forbidden position weight `1/2`.  Second, a row with one
forbidden key and one allowed key whose scaled score `-2e9` lies below the
sentinel: the forbidden position keeps weight at least `1/2`, so the
proviso on the allowed score in the amended claim is also necessary. -/
theorem attention_masked_weight_counterexample :
    (¬ ((attention (fun (_ : Fin 1) (_ : Fin 1) => (0 : ℝ))
        (fun (_ : Fin 2) (_ : Fin 1) => 0) (fun (_ : Fin 2) (_ : Fin 1) => 0)
        (some (fun _ _ => false)) none).2 0 0 < 1e-6))
    ∧ ((fun (_ : Fin 1) (j : Fin 2) => (decide (j = 1) : Bool)) 0 0 = false
      ∧ (fun (_ : Fin 1) (j : Fin 2) => (decide (j = 1) : Bool)) 0 1 = true
      ∧ ¬ ((attention (fun (_ : Fin 1) (_ : Fin 1) => (1 : ℝ))
          (fun (j : Fin 2) (_ : Fin 1) => if j = 0 then 0 else -2e9)
          (fun (_ : Fin 2) (_ : Fin 1) => 0)
          (some (fun _ j => decide (j = 1))) none).2 0 0 < 1e-6)) := by
  constructor
  · have hval : (attention (fun (_ : Fin 1) (_ : Fin 1) => (0 : ℝ))
        (fun (_ : Fin 2) (_ : Fin 1) => 0) (fun (_ : Fin 2) (_ : Fin 1) => 0)
        (some (fun _ _ => false)) none).2 0 0 = 1 / 2 := by
      show softmaxRow (maskedFill (attnScores (fun (_ : Fin 1) (_ : Fin 1) => (0 : ℝ))
          (fun (_ : Fin 2) (_ : Fin 1) => 0)) (fun _ _ => false) 0) 0 = 1 / 2
      unfold softmaxRow maskedFill
      rw [Fin.sum_univ_two]
      simp only [if_false, Bool.false_eq_true]
      have hpos : 0 < Real.exp (-1e9 : ℝ) := Real.exp_pos _
      field_simp
      ring
    rw [hval]
    norm_num
  · refine ⟨by decide, by decide, ?_⟩
    have hs0 : maskedFill (attnScores (fun (_ : Fin 1) (_ : Fin 1) => (1 : ℝ))
        (fun (j : Fin 2) (_ : Fin 1) => if j = 0 then 0 else -2e9))
        (fun _ j => decide (j = 1)) 0 0 = -1e9 := by
      unfold maskedFill
      simp
    have hs1 : maskedFill (attnScores (fun (_ : Fin 1) (_ : Fin 1) => (1 : ℝ))
        (fun (j : Fin 2) (_ : Fin 1) => if j = 0 then 0 else -2e9))
        (fun _ j => decide (j = 1)) 0 1 = -2e9 := by
      unfold maskedFill attnScores
      rw [Fin.sum_univ_one]
      norm_num [Real.sqrt_one]
    have hval : (attention (fun (_ : Fin 1) (_ : Fin 1) => (1 : ℝ))
        (fun (j : Fin 2) (_ : Fin 1) => if j = 0 then 0 else -2e9)
        (fun (_ : Fin 2) (_ : Fin 1) => 0)
        (some (fun _ j => decide (j = 1))) none).2 0 0 =
        Real.exp (-1e9) / (Real.exp (-1e9) + Real.exp (-2e9)) := by
      show softmaxRow (maskedFill (attnScores (fun (_ : Fin 1) (_ : Fin 1) => (1 : ℝ))
          (fun (j : Fin 2) (_ : Fin 1) => if j = 0 then 0 else -2e9))
          (fun _ j => decide (j = 1)) 0) 0 = _
      unfold softmaxRow
      rw [Fin.sum_univ_two, hs0, hs1]
    have hle : Real.exp (-2e9 : ℝ) ≤ Real.exp (-1e9 : ℝ) :=
      Real.exp_le_exp.mpr (by norm_num)
    have hhalf : (1 : ℝ) / 2 ≤
        Real.exp (-1e9) / (Real.exp (-1e9) + Real.exp (-2e9)) := by
      rw [div_le_div_iff₀ (by norm_num) (by positivity)]
      nlinarith [Real.exp_pos (-1e9 : ℝ), Real.exp_pos (-2e9 : ℝ)]
    rw [hval]
    intro hlt
    linarith

/-- The deviations from the mean sum to zero. -/
lemma sum_sub_vecMean {n : ℕ} (hn : 0 < n) (x : Fin n → ℝ) :
    ∑ i, (x i - vecMean x) = 0 := by
  have hnR : ((n : ℝ)) ≠ 0 := by
    exact_mod_cast Nat.pos_iff_ne_zero.mp hn
  rw [Finset.sum_sub_distrib, Finset.sum_const, Finset.card_univ, Fintype.card_fin,
    nsmul_eq_mul]
  unfold vecMean
  field_simp

/-- Claim C5: for every input vector of feature length at least 2 that is
non-degenerate (its spread dominates the epsilon: `eps ≤ std`, with
`eps > 0`), the LayerNorm result before the learnable scale and shift —
`(x - mean) / (std + eps)` over the feature axis — has mean exactly 0 and
unbiased variance within `3 * eps / std` of 1. -/
theorem layerNorm_normalize_stats {n : ℕ} (x : Fin n → ℝ) (eps : ℝ)
    (hn : 2 ≤ n) (heps : 0 < eps) (hnd : eps ≤ vecStd x) :
    vecMean (LayerNorm.normalize eps x) = 0 ∧
    |vecVar (LayerNorm.normalize eps x) - 1| ≤ 3 * eps / vecStd x := by
  have hn0 : 0 < n := by omega
  have hs0 : 0 ≤ vecStd x := Real.sqrt_nonneg _
  have hspos : 0 < vecStd x := lt_of_lt_of_le heps hnd
  have hc : 0 < vecStd x + eps := by linarith
  have hn1 : (0 : ℝ) < (n : ℝ) - 1 := by
    have : (2 : ℝ) ≤ (n : ℝ) := by exact_mod_cast hn
    linarith
  have hmean : vecMean (LayerNorm.normalize eps x) = 0 := by
    unfold vecMean LayerNorm.normalize
    rw [← Finset.sum_div, sum_sub_vecMean hn0, zero_div, zero_div]
  refine ⟨hmean, ?_⟩
  have hv : vecStd x ^ 2 = (∑ i, (x i - vecMean x) ^ 2) / ((n : ℝ) - 1) := by
    unfold vecStd
    rw [Real.sq_sqrt]
    positivity
  have hvar : vecVar (LayerNorm.normalize eps x) =
      (vecStd x / (vecStd x + eps)) ^ 2 := by
    unfold vecVar
    rw [hmean]
    simp only [sub_zero]
    unfold LayerNorm.normalize
    simp only [div_pow]
    rw [← Finset.sum_div, div_div, mul_comm ((vecStd x + eps) ^ 2) ((n : ℝ) - 1),
      ← div_div, ← hv]
  rw [hvar]
  have hle1 : (vecStd x / (vecStd x + eps)) ^ 2 ≤ 1 := by
    have h1 : vecStd x / (vecStd x + eps) ≤ 1 := by
      rw [div_le_one hc]
      linarith
    have h0 : 0 ≤ vecStd x / (vecStd x + eps) := by positivity
    nlinarith
  rw [abs_of_nonpos (by linarith)]
  have heq : -(((vecStd x / (vecStd x + eps)) ^ 2) - 1) =
      ((vecStd x + eps) ^ 2 - vecStd x ^ 2) / (vecStd x + eps) ^ 2 := by
    rw [div_pow]
    field_simp
  rw [heq, div_le_div_iff₀ (by positivity) hspos]
  nlinarith [mul_nonneg (mul_nonneg heps.le hspos.le) hspos.le,
    mul_nonneg (mul_nonneg heps.le heps.le) hspos.le,
    mul_nonneg (mul_nonneg heps.le heps.le) heps.le]

/-- Witness for C5: the vector `(0, 2)` with the default `eps = 1e-6`;
its unbiased standard deviation is `√2 ≥ 1e-6`. -/
theorem layerNorm_normalize_stats_witness :
    2 ≤ 2 ∧ (0 : ℝ) < 1e-6 ∧ (1e-6 : ℝ) ≤ vecStd ![(0 : ℝ), 2] ∧
    (vecMean (LayerNorm.normalize 1e-6 ![(0 : ℝ), 2]) = 0 ∧
      |vecVar (LayerNorm.normalize 1e-6 ![(0 : ℝ), 2]) - 1| ≤
        3 * 1e-6 / vecStd ![(0 : ℝ), 2]) := by
  have hstd : vecStd ![(0 : ℝ), 2] = Real.sqrt 2 := by
    unfold vecStd vecMean
    rw [Fin.sum_univ_two, Fin.sum_univ_two]
    norm_num
  have h3 : (1e-6 : ℝ) ≤ vecStd ![(0 : ℝ), 2] := by
    rw [hstd]
    have h1 : (1 : ℝ) ≤ Real.sqrt 2 := by
      rw [show (1 : ℝ) = Real.sqrt 1 from Real.sqrt_one.symm]
      exact Real.sqrt_le_sqrt (by norm_num)
    linarith
  exact ⟨le_refl 2, by norm_num, h3,
    layerNorm_normalize_stats ![(0 : ℝ), 2] 1e-6 (le_refl 2) (by norm_num) h3⟩

/-- Claim C6: the decoder layer applies exactly three sublayer connections
in order — self-attention with `Q = K = V = x` under the target mask,
cross-attention with `Q` the decoder state and `K = V` the encoder memory
under the source mask, then the feed-forward — and the target mask
(modelled from the spec as causal AND padding) forbids every strictly
later position, so no position attends to a later one. -/
theorem decoder_layer_structure {t s d : ℕ}
    (self_attn : Mat t d → Mat t d → Mat t d → Option (Fin t → Fin t → Bool) → Mat t d)
    (src_attn : Mat t d → Mat s d → Mat s d → Option (Fin t → Fin s → Bool) → Mat t d)
    (feed_forward : Mat t d → Mat t d)
    (a0 b0 a1 b1 a2 b2 : Fin d → ℝ) (eps : ℝ)
    (drop0 drop1 drop2 : Mat t d → Mat t d)
    (x : Mat t d) (memory : Mat s d)
    (src_mask : Option (Fin t → Fin s → Bool)) (tgt_mask : Option (Fin t → Fin t → Bool))
    (pad : Fin t → Fin t → Bool) :
    (DecoderLayer.forward self_attn src_attn feed_forward a0 b0 a1 b1 a2 b2 eps
        drop0 drop1 drop2 x memory src_mask tgt_mask =
      SublayerConnection.forward a2 b2 eps drop2
        (SublayerConnection.forward a1 b1 eps drop1
          (SublayerConnection.forward a0 b0 eps drop0 x (fun y => self_attn y y y tgt_mask))
          (fun y => src_attn y memory memory src_mask))
        feed_forward)
    ∧ (∀ i j : Fin t, (i : ℕ) < (j : ℕ) → combinedTgtMask t pad i j = false) := by
  refine ⟨rfl, ?_⟩
  intro i j hij
  unfold combinedTgtMask
  rw [subsequent_mask_getD t i j i.isLt j.isLt]
  have : ¬ ((j : ℕ) ≤ (i : ℕ)) := by omega
  simp [this]

/-- Witness for C6: the combined-mask consequence at `t = 2`, positions
`i = 0 < j = 1`, with an all-permitting padding mask and trivial sublayer
modules over 1-feature tensors. -/
theorem decoder_layer_structure_witness :
    (0 : ℕ) < 1 ∧ combinedTgtMask 2 (fun _ _ => true) 0 1 = false :=
  ⟨by decide,
    (@decoder_layer_structure 2 1 1
      (fun _ _ _ _ => fun _ _ => 0) (fun _ _ _ _ => fun _ _ => 0) (fun y => y)
      (fun _ => 0) (fun _ => 0) (fun _ => 0) (fun _ => 0) (fun _ => 0) (fun _ => 0)
      0 (fun y => y) (fun y => y) (fun y => y) (fun _ _ => 0) (fun _ _ => 0)
      none none (fun _ _ => true)).2 0 1 (by decide)⟩

/-- `getD` at the length of the left list of a one-element append. -/
lemma getD_append_singleton {α : Type} (l : List α) (v d : α) :
    (l ++ [v]).getD l.length d = v := by
  induction l with
  | nil => rfl
  | cons a l ih => simp [ih]

/-- `clones` only allocates: the original heap is a prefix of the result. -/
lemma clones_heap_grows {α : Type} (heap : List α) (t : ℕ) (d : α) (N : ℕ) :
    ∃ ext, (clones heap t d N).1 = heap ++ ext := by
  induction N generalizing heap with
  | zero => exact ⟨[], by simp [clones]⟩
  | succ N ih =>
      obtain ⟨ext, hext⟩ := ih (heap ++ [heap.getD t d])
      refine ⟨heap.getD t d :: ext, ?_⟩
      simp only [clones]
      rw [hext]
      simp

/-- Existing heap cells are untouched by `clones`. -/
lemma clones_getD_of_lt {α : Type} (heap : List α) (t : ℕ) (d d' : α) (N i : ℕ)
    (h : i < heap.length) :
    (clones heap t d N).1.getD i d' = heap.getD i d' := by
  obtain ⟨ext, hext⟩ := clones_heap_grows heap t d N
  rw [hext]
  exact List.getD_append _ _ _ _ h

/-- The addresses returned by `clones` are the `N` fresh cells past the end
of the incoming heap. -/
lemma clones_idx_eq {α : Type} (heap : List α) (t : ℕ) (d : α) (N : ℕ) :
    (clones heap t d N).2 = (List.range N).map (fun r => heap.length + r) := by
  induction N generalizing heap with
  | zero => simp [clones]
  | succ N ih =>
      simp only [clones, ih, List.length_append, List.length_singleton]
      rw [List.range_succ_eq_map]
      simp only [List.map_cons, List.map_map, Nat.add_zero]
      congr 1
      apply List.map_congr_left
      intro r _
      simp only [Function.comp_apply]
      omega

/-- Every cloned cell holds the template's value. -/
lemma clones_getD_idx {α : Type} (heap : List α) (t : ℕ) (d : α) (N : ℕ)
    (ht : t < heap.length) :
    ∀ j ∈ (clones heap t d N).2,
      (clones heap t d N).1.getD j d = heap.getD t d := by
  induction N generalizing heap with
  | zero => simp [clones]
  | succ N ih =>
      intro j hj
      rw [show clones heap t d (N + 1) =
        ((clones (heap ++ [heap.getD t d]) t d N).1,
          heap.length :: (clones (heap ++ [heap.getD t d]) t d N).2) from rfl] at hj ⊢
      simp only [List.mem_cons] at hj
      rcases hj with hj | hj
      · subst hj
        rw [clones_getD_of_lt _ _ _ _ _ _ (by simp)]
        exact getD_append_singleton heap _ d
      · have ht1 : t < (heap ++ [heap.getD t d]).length := by
          simp
          omega
        rw [ih (heap ++ [heap.getD t d]) ht1 j hj,
          List.getD_append _ _ _ _ ht]

/-- Claim C7: the encoder (and decoder) stack applies its layers
sequentially — layer by layer from the head of the list — and finishes
with one final layer normalisation; the `N ≥ 1` layers produced by
`clones` live at pairwise distinct fresh heap addresses, none of which is
the template's address, and each initially holds a copy of the template's
parameters. -/
theorem encoder_stack_sequential_and_independent {α : Type} {s d : ℕ}
    (heap : List α) (template : ℕ) (dflt : α) (N : ℕ)
    (hN : 1 ≤ N) (ht : template < heap.length)
    (l : Mat s d → (Fin s → Fin s → Bool) → Mat s d)
    (ls : List (Mat s d → (Fin s → Fin s → Bool) → Mat s d))
    (a_2 b_2 : Fin d → ℝ) (eps : ℝ) (x : Mat s d) (mask : Fin s → Fin s → Bool) :
    (Encoder.forward (l :: ls) a_2 b_2 eps x mask =
      Encoder.forward ls a_2 b_2 eps (l x mask) mask)
    ∧ (Encoder.forward [] a_2 b_2 eps x mask =
      fun i => LayerNorm.forward a_2 b_2 eps (x i))
    ∧ (clones heap template dflt N).2.length = N
    ∧ (clones heap template dflt N).2.Nodup
    ∧ (∀ j ∈ (clones heap template dflt N).2,
        j ≠ template ∧
          (clones heap template dflt N).1.getD j dflt = heap.getD template dflt) := by
  refine ⟨rfl, rfl, ?_, ?_, ?_⟩
  · rw [clones_idx_eq]
    simp
  · rw [clones_idx_eq]
    exact List.Nodup.map (fun a b hab => by omega) (List.nodup_range N)
  · intro j hj
    refine ⟨?_, clones_getD_idx heap template dflt N ht j hj⟩
    rw [clones_idx_eq] at hj
    simp only [List.mem_map, List.mem_range] at hj
    obtain ⟨r, _, hr⟩ := hj
    omega

/-- Witness for C7: a two-cell heap of natural-number parameter records,
template at address 0, `N = 2` clones, and identity layers over `1 × 1`
tensors. -/
theorem encoder_stack_witness :
    (1 ≤ 2 ∧ 0 < [7, 9].length) ∧
    ((clones [7, 9] 0 7 2).2.length = 2
      ∧ (clones [7, 9] 0 7 2).2.Nodup
      ∧ ∀ j ∈ (clones [7, 9] 0 7 2).2,
          j ≠ 0 ∧ (clones [7, 9] 0 7 2).1.getD j 7 = [7, 9].getD 0 7) :=
  ⟨⟨by decide, by decide⟩,
    (@encoder_stack_sequential_and_independent ℕ 1 1 [7, 9] 0 7 2 (by decide) (by decide)
      (fun y _ => y) [] (fun _ => 0) (fun _ => 0) 0 (fun _ _ => 0)
      (fun _ _ => true)).2.2⟩

end Transformer
